import Mathlib

/-!
Verification of the monochrome dithering engine in `src/src/App.tsx`.

The engine is embedded shallowly:
* JS numbers are modelled as rationals (`ℚ`), idealizing floating point;
  `Math.round` becomes `roundQ`.
* pixel buffers (`Uint8ClampedArray`, `Float32Array`) become `List ℚ`
  (respectively `List ℕ` for the binary mask), indexed with `List.getD`
  and updated with `List.set`, matching the in-bounds typed-array writes.
* the canvas becomes a function from coordinates to colors, with
  `fillRect` overwriting a rectangle, mirroring the 2d-context calls.
* `Math.pow` (a transcendental function) is abstracted as an explicit
  `powFn : ℚ → ℚ → ℚ` parameter; `Math.random()` as an injected stream
  `rng : ℕ → ℚ` giving the value drawn at the p-th pixel.
-/

namespace Dither

/-- JS `Math.round`: round half toward positive infinity, `⌊x + 1/2⌋`. -/
def roundQ (x : ℚ) : ℤ := ⌊x + 1/2⌋

/-- `Math.max(0, Math.min(1, x))` as used in `applyTonalAdjustments`. -/
def clamp01 (x : ℚ) : ℚ := max 0 (min 1 x)

/-- `toLuma` from App.tsx: Rec. 709 luma `Math.round(0.2126 r + 0.7152 g + 0.0722 b)`. -/
def toLuma (r g b : ℚ) : ℤ := roundQ (0.2126 * r + 0.7152 * g + 0.0722 * b)

/-- The tonal-control state read by `applyTonalAdjustments`. -/
structure Tonal where
  brightness : ℚ
  contrast : ℚ
  gamma : ℚ
  invert : Bool

/-- `applyTonalAdjustments` from App.tsx, with `Math.pow` abstracted as `powFn`
(the code calls it as `Math.pow(clamped x, 1 / gamma)`). -/
def applyTonalAdjustments (powFn : ℚ → ℚ → ℚ) (t : Tonal) (v : ℚ) : ℤ :=
  let x1 := v / 255
  let x2 := x1 + t.brightness / 100
  let x3 := if t.contrast ≠ 0 then (x2 - 0.5) * ((100 + t.contrast) / 100) + 0.5 else x2
  let x4 := if t.gamma > 0 ∧ t.gamma ≠ 1 then powFn (clamp01 x3) (1 / t.gamma) else clamp01 x3
  let x5 := if t.invert then 1 - x4 else x4
  roundQ (x5 * 255)

/-- Spec step 1: normalize `x = v/255`. -/
def tonalStepNormalize (v : ℚ) : ℚ := v / 255

/-- Spec step 2: additive brightness, unclamped. -/
def tonalStepBrightness (b x : ℚ) : ℚ := x + b / 100

/-- Spec step 3: contrast around the midpoint, only when `contrast ≠ 0`. -/
def tonalStepContrast (c x : ℚ) : ℚ :=
  if c ≠ 0 then (x - 0.5) * ((100 + c) / 100) + 0.5 else x

/-- Spec step 4: clamp to `[0,1]`, then gamma-map when `gamma > 0` and `gamma ≠ 1`. -/
def tonalStepGamma (powFn : ℚ → ℚ → ℚ) (g x : ℚ) : ℚ :=
  let y := clamp01 x
  if g > 0 ∧ g ≠ 1 then powFn y (1 / g) else y

/-- Spec step 5: invert when enabled. -/
def tonalStepInvert (inv : Bool) (x : ℚ) : ℚ := if inv then 1 - x else x

/-- The spec's tonal pipeline assembled literally in its stated order:
normalize, then brightness, then contrast, then clamp+gamma, then invert,
then `round(x*255)`. -/
def tonalPipelineSpec (powFn : ℚ → ℚ → ℚ) (t : Tonal) (v : ℚ) : ℤ :=
  roundQ (tonalStepInvert t.invert
    (tonalStepGamma powFn t.gamma
      (tonalStepContrast t.contrast
        (tonalStepBrightness t.brightness (tonalStepNormalize v)))) * 255)

/-- Threshold variant: `T = Math.max(0, Math.min(255, threshold))`,
`mask[p] = gray[p] >= T ? 1 : 0` for every pixel. -/
def thresholdMask (threshold : ℚ) (gray : List ℚ) : List ℕ :=
  let T := max 0 (min 255 threshold)
  gray.map (fun g => if g ≥ T then 1 else 0)

/-- Random variant: `rng p` is the value `Math.random() * 255` drawn at pixel `p`;
`mask[p] = gray[p] >= rnd ? 1 : 0`. -/
def randomMask (rng : ℕ → ℚ) (gray : List ℚ) : List ℕ :=
  (List.range gray.length).map (fun p => if gray.getD p 0 ≥ rng p then 1 else 0)

/-- `BAYER_2` from App.tsx. -/
def BAYER_2 : List (List ℕ) := [[0, 2], [3, 1]]

/-- `BAYER_4` from App.tsx. -/
def BAYER_4 : List (List ℕ) :=
  [[0, 8, 2, 10], [12, 4, 14, 6], [3, 11, 1, 9], [15, 7, 13, 5]]

/-- `BAYER_8` from App.tsx. -/
def BAYER_8 : List (List ℕ) :=
  [[0, 48, 12, 60, 3, 51, 15, 63],
   [32, 16, 44, 28, 35, 19, 47, 31],
   [8, 56, 4, 52, 11, 59, 7, 55],
   [40, 24, 36, 20, 43, 27, 39, 23],
   [2, 50, 14, 62, 1, 49, 13, 61],
   [34, 18, 46, 30, 33, 17, 45, 29],
   [10, 58, 6, 54, 9, 57, 5, 53],
   [42, 26, 38, 22, 41, 25, 37, 21]]

/-- The ordered-dither threshold at pixel `(x, y)`:
`((m[y % n][x % n] + 0.5) * 255) / (n*n)`. -/
def orderedThreshold (m : List (List ℕ)) (x y : ℕ) : ℚ :=
  let n := m.length
  (((m.getD (y % n) []).getD (x % n) 0 : ℚ) + 0.5) * 255 / (n * n)

/-- Ordered (Bayer) variants: the double loop over `y < h`, `x < w` writes
`mask[y*w+x] = gray[y*w+x] > t ? 1 : 0`; enumerated here by the flat index
`idx` with `x = idx % w`, `y = idx / w`. -/
def orderedMask (m : List (List ℕ)) (w h : ℕ) (gray : List ℚ) : List ℕ :=
  (List.range (w * h)).map (fun idx =>
    if gray.getD idx 0 > orderedThreshold m (idx % w) (idx / w) then 1 else 0)

/-- The row-major scan order of the nested `for (y) for (x)` loops. -/
def scanOrder (w h : ℕ) : List (ℕ × ℕ) :=
  (List.range h).flatMap (fun y => (List.range w).map (fun x => (y, x)))

/-- `buf[i] += d` on a rational working buffer. -/
def bufAdd (buf : List ℚ) (i : ℕ) (d : ℚ) : List ℚ :=
  buf.set i (buf.getD i 0 + d)

/-- The quantization rule shared by both error-diffusion variants:
`old < 128 ? 0 : 255`. -/
def fsQuant (old : ℚ) : ℚ := if old < 128 then 0 else 255

/-- The four guarded error-diffusion writes of the Floyd-Steinberg case:
`7/16` right, and on the next row `3/16` below-left (only if `x > 0`),
`5/16` below, `1/16` below-right. -/
def fsDiffuse (w h x y : ℕ) (err : ℚ) (buf : List ℚ) : List ℚ :=
  let i := y * w + x
  let b1 := if x + 1 < w then bufAdd buf (i + 1) (err * 7 / 16) else buf
  if y + 1 < h then
    let b2 := if 0 < x then bufAdd b1 (i + w - 1) (err * 3 / 16) else b1
    let b3 := bufAdd b2 (i + w) (err * 5 / 16)
    if x + 1 < w then bufAdd b3 (i + w + 1) (err * 1 / 16) else b3
  else b1

/-- One pixel of the Floyd-Steinberg scan: threshold at 128, record the mask
bit, diffuse the error `old - new`. -/
def fsStep (w h : ℕ) (st : List ℚ × List ℕ) (p : ℕ × ℕ) : List ℚ × List ℕ :=
  let i := p.1 * w + p.2
  let old := st.1.getD i 0
  (fsDiffuse w h p.2 p.1 (old - fsQuant old) st.1,
   st.2.set i (if fsQuant old = 255 then 1 else 0))

/-- Floyd-Steinberg case of `processImage`: working buffer initialized from
`gray`, zero mask, pixels processed in row-major scan order. -/
def floydSteinberg (w h : ℕ) (gray : List ℚ) : List ℚ × List ℕ :=
  (scanOrder w h).foldl (fsStep w h) (gray, List.replicate (w * h) 0)

/-- The six guarded error writes of the Atkinson case, each adding the
undivided `err`: right, right-by-2, below-left (only if `x > 0`), below,
below-right, and two rows below. -/
def atkDiffuse (w h x y : ℕ) (err : ℚ) (buf : List ℚ) : List ℚ :=
  let i := y * w + x
  let b1 := if x + 1 < w then bufAdd buf (i + 1) err else buf
  let b2 := if x + 2 < w then bufAdd b1 (i + 2) err else b1
  let b3 :=
    if y + 1 < h then
      let c1 := if 0 < x then bufAdd b2 (i + w - 1) err else b2
      let c2 := bufAdd c1 (i + w) err
      if x + 1 < w then bufAdd c2 (i + w + 1) err else c2
    else b2
  if y + 2 < h then bufAdd b3 (i + 2 * w) err else b3

/-- One pixel of the Atkinson scan: threshold at 128, record the mask bit,
diffuse `err = (old - new) / 8` undivided to up to six neighbors. -/
def atkStep (w h : ℕ) (st : List ℚ × List ℕ) (p : ℕ × ℕ) : List ℚ × List ℕ :=
  let i := p.1 * w + p.2
  let old := st.1.getD i 0
  (atkDiffuse w h p.2 p.1 ((old - fsQuant old) / 8) st.1,
   st.2.set i (if fsQuant old = 255 then 1 else 0))

/-- Atkinson case of `processImage`. -/
def atkinson (w h : ℕ) (gray : List ℚ) : List ℚ × List ℕ :=
  (scanOrder w h).foldl (atkStep w h) (gray, List.replicate (w * h) 0)

/-- The `switch (algorithm)` dispatcher of `processImage` step 2. The mask is
zero-initialized; an identifier matching no case leaves it untouched (the
switch has no default branch). -/
def ditherMask (alg : String) (threshold : ℚ) (rng : ℕ → ℚ) (w h : ℕ)
    (gray : List ℚ) : List ℕ :=
  if alg = "Threshold" then thresholdMask threshold gray
  else if alg = "Random" then randomMask rng gray
  else if alg = "Ordered Bayer 2x2" then orderedMask BAYER_2 w h gray
  else if alg = "Ordered Bayer 4x4" then orderedMask BAYER_4 w h gray
  else if alg = "Ordered Bayer 8x8" then orderedMask BAYER_8 w h gray
  else if alg = "Floyd-Steinberg" then (floydSteinberg w h gray).2
  else if alg = "Atkinson" then (atkinson w h gray).2
  else List.replicate (w * h) 0

/-- A canvas maps `(X, Y)` coordinates to a color. -/
def Canvas (α : Type) : Type := ℕ → ℕ → α

/-- `ctx.fillRect(rx, ry, rw, rh)` with fill color `col`. -/
def fillRect {α : Type} (c : Canvas α) (rx ry rw rh : ℕ) (col : α) : Canvas α :=
  fun X Y => if rx ≤ X ∧ X < rx + rw ∧ ry ≤ Y ∧ Y < ry + rh then col else c X Y

/-- The output raster: canvas dimensions plus pixel contents. -/
structure OutRaster (α : Type) where
  width : ℕ
  height : ℕ
  pix : Canvas α

/-- Step 3 of `processImage`: set the canvas to `(w*s, h*s)` (blank), fill it
with the background color, then fill an `s×s` foreground block for every mask
pixel that is nonzero, in scan order. -/
def composite {α : Type} (w h s : ℕ) (mask : List ℕ) (fg bg blank : α) :
    OutRaster α :=
  let outW := w * s
  let outH := h * s
  let c0 := fillRect (fun _ _ => blank) 0 0 outW outH bg
  let c := (scanOrder w h).foldl
    (fun c p =>
      if mask.getD (p.1 * w + p.2) 0 ≠ 0 then
        fillRect c (p.2 * s) (p.1 * s) s s fg
      else c) c0
  ⟨outW, outH, c⟩

/-- Storing an integer into a `Uint8ClampedArray` clamps it to `[0,255]`. -/
def clampByte (z : ℤ) : ℤ := max 0 (min 255 z)

/-- The full `processImage` pipeline: per-pixel luma and tonal adjustments
stored into the clamped grayscale buffer, the selected dither variant, then
block compositing with the palette colors `fg`/`bg`. -/
def processImage {α : Type} (powFn : ℚ → ℚ → ℚ) (alg : String) (t : Tonal)
    (threshold : ℚ) (rng : ℕ → ℚ) (w h s : ℕ) (src : List (ℚ × ℚ × ℚ))
    (fg bg blank : α) : OutRaster α :=
  let gray : List ℚ := src.map (fun rgb =>
    (clampByte (applyTonalAdjustments powFn t (toLuma rgb.1 rgb.2.1 rgb.2.2)) : ℚ))
  composite w h s (ditherMask alg threshold rng w h gray) fg bg blank

/-! ### Buffer and indexing lemmas -/

theorem length_bufAdd (buf : List ℚ) (i : ℕ) (d : ℚ) :
    (bufAdd buf i d).length = buf.length := by
  simp [bufAdd]

theorem getD_bufAdd_self (buf : List ℚ) (i : ℕ) (d : ℚ) (h : i < buf.length) :
    (bufAdd buf i d).getD i 0 = buf.getD i 0 + d := by
  simp [bufAdd, List.getD_eq_getElem?_getD, List.getElem?_set_self, h]

theorem getD_bufAdd_ne (buf : List ℚ) (i j : ℕ) (d : ℚ) (h : i ≠ j) :
    (bufAdd buf i d).getD j 0 = buf.getD j 0 := by
  simp [bufAdd, List.getD_eq_getElem?_getD, List.getElem?_set_ne h]

theorem sum_bufAdd (buf : List ℚ) (i : ℕ) (d : ℚ) (h : i < buf.length) :
    (bufAdd buf i d).sum = buf.sum + d := by
  rw [bufAdd, List.sum_set']
  simp [h, List.getD_eq_getElem?_getD, List.getElem?_eq_getElem h]

theorem getD_set_self {α : Type} (l : List α) (i : ℕ) (a d : α) (h : i < l.length) :
    (l.set i a).getD i d = a := by
  simp [List.getD_eq_getElem?_getD, List.getElem?_set_self, h]

theorem idx_lt {w h x y : ℕ} (hx : x < w) (hy : y < h) : y * w + x < w * h := by
  calc y * w + x < y * w + w := by omega
    _ = (y + 1) * w := by ring
    _ ≤ h * w := Nat.mul_le_mul_right w hy
    _ = w * h := Nat.mul_comm h w

theorem scan_mod {w x y : ℕ} (hx : x < w) : (y * w + x) % w = x := by
  rw [Nat.mul_comm, Nat.mul_add_mod, Nat.mod_eq_of_lt hx]

theorem scan_div {w x y : ℕ} (hx : x < w) : (y * w + x) / w = y := by
  rw [Nat.mul_comm, Nat.mul_add_div (by omega), Nat.div_eq_of_lt hx]
  omega

theorem getD_range_map {α : Type} (n k : ℕ) (f : ℕ → α) (d : α) (hk : k < n) :
    ((List.range n).map f).getD k d = f k := by
  simp [List.getD_eq_getElem?_getD, List.getElem?_map, List.getElem?_range hk]

theorem getD_map_lt {α β : Type} (l : List α) (f : α → β) (p : ℕ)
    (d : α) (e : β) (hp : p < l.length) :
    (l.map f).getD p e = f (l.getD p d) := by
  simp [List.getD_eq_getElem?_getD, List.getElem?_map, List.getElem?_eq_getElem hp]

theorem mem_scanOrder {w h y x : ℕ} : (y, x) ∈ scanOrder w h ↔ y < h ∧ x < w := by
  simp only [scanOrder, List.mem_flatMap, List.mem_map, List.mem_range, Prod.mk.injEq]
  constructor
  · rintro ⟨a, ha, b, hb, rfl, rfl⟩
    exact ⟨ha, hb⟩
  · rintro ⟨hy, hx⟩
    exact ⟨y, hy, x, hx, rfl, rfl⟩

/-! ### Interior-pixel normal forms for the two diffusion variants -/

theorem fsDiffuse_interior (w h x y : ℕ) (err : ℚ) (buf : List ℚ)
    (hx : 0 < x) (hx1 : x + 1 < w) (hy1 : y + 1 < h) :
    fsDiffuse w h x y err buf =
      bufAdd (bufAdd (bufAdd (bufAdd buf (y * w + x + 1) (err * 7 / 16))
        (y * w + x + w - 1) (err * 3 / 16)) (y * w + x + w) (err * 5 / 16))
        (y * w + x + w + 1) (err * 1 / 16) := by
  simp [fsDiffuse, hx, hx1, hy1]

theorem atkDiffuse_interior (w h x y : ℕ) (err : ℚ) (buf : List ℚ)
    (hx : 0 < x) (hx2 : x + 2 < w) (hy2 : y + 2 < h) :
    atkDiffuse w h x y err buf =
      bufAdd (bufAdd (bufAdd (bufAdd (bufAdd (bufAdd buf
        (y * w + x + 1) err) (y * w + x + 2) err) (y * w + x + w - 1) err)
        (y * w + x + w) err) (y * w + x + w + 1) err) (y * w + x + 2 * w) err := by
  simp [atkDiffuse, hx, hx2, hy2, show x + 1 < w by omega, show y + 1 < h by omega]

/-! ### Ordered-dither pixel lemma -/

theorem getD_orderedMask (m : List (List ℕ)) (w h : ℕ) (gray : List ℚ)
    (x y : ℕ) (hx : x < w) (hy : y < h) :
    (orderedMask m w h gray).getD (y * w + x) 0
      = if gray.getD (y * w + x) 0 > orderedThreshold m x y then 1 else 0 := by
  rw [orderedMask, getD_range_map _ _ _ _ (idx_lt hx hy), scan_mod hx, scan_div hx]

/-! ### Mask shape invariants -/

theorem mask_fold_invariant (step : List ℚ × List ℕ → ℕ × ℕ → List ℚ × List ℕ)
    (hstep : ∀ st p, (step st p).2.length = st.2.length ∧
      ∀ b ∈ (step st p).2, b ∈ st.2 ∨ b = 0 ∨ b = 1) :
    ∀ (L : List (ℕ × ℕ)) (st : List ℚ × List ℕ),
      (L.foldl step st).2.length = st.2.length ∧
      ((∀ b ∈ st.2, b = 0 ∨ b = 1) → ∀ b ∈ (L.foldl step st).2, b = 0 ∨ b = 1)
  | [], st => ⟨rfl, fun hst => hst⟩
  | p :: L, st => by
    obtain ⟨h1, h2⟩ := mask_fold_invariant step hstep L (step st p)
    rw [List.foldl_cons]
    refine ⟨h1.trans (hstep st p).1, fun hst => h2 ?_⟩
    intro b hb
    rcases (hstep st p).2 b hb with hmem | hb01
    · exact hst b hmem
    · exact hb01

theorem fsStep_mask (w h : ℕ) (st : List ℚ × List ℕ) (p : ℕ × ℕ) :
    (fsStep w h st p).2.length = st.2.length ∧
    ∀ b ∈ (fsStep w h st p).2, b ∈ st.2 ∨ b = 0 ∨ b = 1 := by
  refine ⟨List.length_set _ _ _, ?_⟩
  intro b hb
  rcases List.mem_or_eq_of_mem_set hb with hmem | rfl
  · exact Or.inl hmem
  · right
    split_ifs <;> simp

theorem atkStep_mask (w h : ℕ) (st : List ℚ × List ℕ) (p : ℕ × ℕ) :
    (atkStep w h st p).2.length = st.2.length ∧
    ∀ b ∈ (atkStep w h st p).2, b ∈ st.2 ∨ b = 0 ∨ b = 1 := by
  refine ⟨List.length_set _ _ _, ?_⟩
  intro b hb
  rcases List.mem_or_eq_of_mem_set hb with hmem | rfl
  · exact Or.inl hmem
  · right
    split_ifs <;> simp

theorem thresholdMask_shape (threshold : ℚ) (gray : List ℚ) :
    (thresholdMask threshold gray).length = gray.length ∧
    ∀ b ∈ thresholdMask threshold gray, b = 0 ∨ b = 1 := by
  refine ⟨by simp [thresholdMask], ?_⟩
  intro b hb
  simp only [thresholdMask, List.mem_map] at hb
  obtain ⟨a, _, rfl⟩ := hb
  split_ifs <;> simp

theorem randomMask_shape (rng : ℕ → ℚ) (gray : List ℚ) :
    (randomMask rng gray).length = gray.length ∧
    ∀ b ∈ randomMask rng gray, b = 0 ∨ b = 1 := by
  refine ⟨by simp [randomMask], ?_⟩
  intro b hb
  simp only [randomMask, List.mem_map] at hb
  obtain ⟨a, _, rfl⟩ := hb
  split_ifs <;> simp

theorem orderedMask_shape (m : List (List ℕ)) (w h : ℕ) (gray : List ℚ) :
    (orderedMask m w h gray).length = w * h ∧
    ∀ b ∈ orderedMask m w h gray, b = 0 ∨ b = 1 := by
  refine ⟨by simp [orderedMask], ?_⟩
  intro b hb
  simp only [orderedMask, List.mem_map] at hb
  obtain ⟨a, _, rfl⟩ := hb
  split_ifs <;> simp

theorem floydSteinberg_mask_shape (w h : ℕ) (gray : List ℚ) :
    (floydSteinberg w h gray).2.length = w * h ∧
    ∀ b ∈ (floydSteinberg w h gray).2, b = 0 ∨ b = 1 := by
  obtain ⟨h1, h2⟩ := mask_fold_invariant (fsStep w h) (fsStep_mask w h)
    (scanOrder w h) (gray, List.replicate (w * h) 0)
  refine ⟨by simpa using h1, h2 ?_⟩
  intro b hb
  exact Or.inl (List.eq_of_mem_replicate hb)

theorem atkinson_mask_shape (w h : ℕ) (gray : List ℚ) :
    (atkinson w h gray).2.length = w * h ∧
    ∀ b ∈ (atkinson w h gray).2, b = 0 ∨ b = 1 := by
  obtain ⟨h1, h2⟩ := mask_fold_invariant (atkStep w h) (atkStep_mask w h)
    (scanOrder w h) (gray, List.replicate (w * h) 0)
  refine ⟨by simpa using h1, h2 ?_⟩
  intro b hb
  exact Or.inl (List.eq_of_mem_replicate hb)

/-! ### Compositor lemmas -/

theorem block_coord_eq {s a x i : ℕ} (hi : i < s) (h1 : a * s ≤ x * s + i)
    (h2 : x * s + i < a * s + s) : a = x := by
  rcases Nat.lt_trichotomy a x with hl | he | hg
  · have h3 : (a + 1) * s ≤ x * s := Nat.mul_le_mul_right s hl
    have e : (a + 1) * s = a * s + s := by ring
    omega
  · exact he
  · have h3 : (x + 1) * s ≤ a * s := Nat.mul_le_mul_right s hg
    have e : (x + 1) * s = x * s + s := by ring
    omega

theorem composite_fold_pix {α : Type} (w s : ℕ) (mask : List ℕ) (fg : α)
    (x y i j : ℕ) (hi : i < s) (hj : j < s) :
    ∀ (L : List (ℕ × ℕ)) (c : Canvas α),
      (L.foldl (fun c p =>
          if mask.getD (p.1 * w + p.2) 0 ≠ 0 then
            fillRect c (p.2 * s) (p.1 * s) s s fg
          else c) c) (x * s + i) (y * s + j)
      = if (y, x) ∈ L ∧ mask.getD (y * w + x) 0 ≠ 0 then fg
        else c (x * s + i) (y * s + j)
  | [], c => by simp
  | q :: L, c => by
    rw [List.foldl_cons, composite_fold_pix w s mask fg x y i j hi hj L _]
    by_cases hq : q = (y, x)
    · subst hq
      by_cases mb : mask.getD (y * w + x) 0 ≠ 0
      · have hstep : (if mask.getD (y * w + x) 0 ≠ 0 then
            fillRect c (x * s) (y * s) s s fg else c) (x * s + i) (y * s + j) = fg := by
          rw [if_pos mb]
          show (if x * s ≤ x * s + i ∧ x * s + i < x * s + s ∧
              y * s ≤ y * s + j ∧ y * s + j < y * s + s
            then fg else c (x * s + i) (y * s + j)) = fg
          rw [if_pos (by omega)]
        rw [hstep, ite_self, if_pos ⟨List.mem_cons_self _ _, mb⟩]
      · have mz : mask.getD (y * w + x) 0 = 0 := not_not.1 mb
        rw [if_neg mb,
          if_neg (show ¬((y, x) ∈ L ∧ mask.getD (y * w + x) 0 ≠ 0) from
            fun hc => hc.2 mz),
          if_neg (show ¬((y, x) ∈ (y, x) :: L ∧ mask.getD (y * w + x) 0 ≠ 0) from
            fun hc => hc.2 mz)]
    · have hstep : (if mask.getD (q.1 * w + q.2) 0 ≠ 0 then
          fillRect c (q.2 * s) (q.1 * s) s s fg else c) (x * s + i) (y * s + j)
          = c (x * s + i) (y * s + j) := by
        split_ifs with mb
        · rw [fillRect, if_neg]
          rintro ⟨ha1, ha2, ha3, ha4⟩
          exact hq (Prod.ext (block_coord_eq hj ha3 ha4) (block_coord_eq hi ha1 ha2))
        · rfl
      rw [hstep]
      by_cases hyL : (y, x) ∈ L
      · have h1 : (y, x) ∈ q :: L := List.mem_cons_of_mem _ hyL
        by_cases mb2 : mask.getD (y * w + x) 0 ≠ 0
        · rw [if_pos ⟨hyL, mb2⟩, if_pos ⟨h1, mb2⟩]
        · rw [if_neg (fun hc => mb2 hc.2), if_neg (fun hc => mb2 hc.2)]
      · have h1 : (y, x) ∉ q :: L := by
          intro hc
          rcases List.mem_cons.1 hc with hc | hc
          · exact hq hc.symm
          · exact hyL hc
        rw [if_neg (fun hc => hyL hc.1), if_neg (fun hc => h1 hc.1)]

/-! ### Tonal-transform lemmas -/

theorem applyTonal_eq_pipeline (powFn : ℚ → ℚ → ℚ) (t : Tonal) (v : ℚ) :
    applyTonalAdjustments powFn t v = tonalPipelineSpec powFn t v := rfl

theorem clamp01_mem (x : ℚ) : 0 ≤ clamp01 x ∧ clamp01 x ≤ 1 :=
  ⟨le_max_left _ _, max_le (by norm_num) (min_le_left _ _)⟩

theorem roundQ_byte {x : ℚ} (h0 : 0 ≤ x) (h1 : x ≤ 1) :
    0 ≤ roundQ (x * 255) ∧ roundQ (x * 255) ≤ 255 := by
  constructor
  · exact Int.le_floor.2 (by push_cast; linarith)
  · calc roundQ (x * 255) = ⌊x * 255 + 1/2⌋ := rfl
      _ ≤ ⌊(255:ℚ) + 1/2⌋ := Int.floor_le_floor (by linarith)
      _ = 255 := by norm_num

/-! ### Dispatcher lemmas -/

theorem ditherMask_rng_irrelevant (alg : String) (halg : alg ≠ "Random")
    (threshold : ℚ) (rng rng2 : ℕ → ℚ) (w h : ℕ) (gray : List ℚ) :
    ditherMask alg threshold rng w h gray = ditherMask alg threshold rng2 w h gray := by
  rw [ditherMask, ditherMask]
  split_ifs <;> rfl

/-! ### Claim theorems -/

/-- C1: Floyd-Steinberg working buffer starts from the grayscale buffer and
pixels are visited in row-major scan order; at each visited interior pixel the
quantized value is 0 when the buffer value is below 128 and 255 otherwise, the
mask bit is 1 exactly when the quantized value is 255, and the error
`err = old - new` goes to the four not-yet-visited neighbors with weights
7/16, 3/16 (below-left, guarded by `x > 0`), 5/16 and 1/16; when all four
targets are in bounds the total error added equals `err` exactly (the buffer
sum grows by exactly `err`). -/
theorem fs_pixel_step (w h x y : ℕ) (buf : List ℚ) (mask : List ℕ)
    (hx : 0 < x) (hx1 : x + 1 < w) (hy1 : y + 1 < h)
    (hb : buf.length = w * h) (hm : mask.length = w * h) :
    (∀ gray : List ℚ, floydSteinberg w h gray =
      (scanOrder w h).foldl (fsStep w h) (gray, List.replicate (w * h) 0)) ∧
    (∀ v : ℚ, v < 128 → fsQuant v = 0) ∧
    (∀ v : ℚ, ¬ v < 128 → fsQuant v = 255) ∧
    (fsStep w h (buf, mask) (y, x)).2.getD (y * w + x) 0
      = (if fsQuant (buf.getD (y * w + x) 0) = 255 then 1 else 0) ∧
    ((fsStep w h (buf, mask) (y, x)).2.getD (y * w + x) 0 = 1
      ↔ fsQuant (buf.getD (y * w + x) 0) = 255) ∧
    (fsStep w h (buf, mask) (y, x)).1.getD (y * w + x + 1) 0
      = buf.getD (y * w + x + 1) 0
        + (buf.getD (y * w + x) 0 - fsQuant (buf.getD (y * w + x) 0)) * 7 / 16 ∧
    (fsStep w h (buf, mask) (y, x)).1.getD (y * w + x + w - 1) 0
      = buf.getD (y * w + x + w - 1) 0
        + (buf.getD (y * w + x) 0 - fsQuant (buf.getD (y * w + x) 0)) * 3 / 16 ∧
    (fsStep w h (buf, mask) (y, x)).1.getD (y * w + x + w) 0
      = buf.getD (y * w + x + w) 0
        + (buf.getD (y * w + x) 0 - fsQuant (buf.getD (y * w + x) 0)) * 5 / 16 ∧
    (fsStep w h (buf, mask) (y, x)).1.getD (y * w + x + w + 1) 0
      = buf.getD (y * w + x + w + 1) 0
        + (buf.getD (y * w + x) 0 - fsQuant (buf.getD (y * w + x) 0)) * 1 / 16 ∧
    (fsStep w h (buf, mask) (y, x)).1.sum
      = buf.sum + (buf.getD (y * w + x) 0 - fsQuant (buf.getD (y * w + x) 0)) := by
  have hxw : x < w := by omega
  have hyh : y < h := by omega
  have hb1 : y * w + x + 1 < w * h := by
    have := idx_lt hx1 hyh
    omega
  have hb2 : y * w + x + w - 1 < w * h := by
    have := idx_lt (show x - 1 < w by omega) hy1
    have e : (y + 1) * w = y * w + w := by ring
    omega
  have hb3 : y * w + x + w < w * h := by
    have := idx_lt hxw hy1
    have e : (y + 1) * w = y * w + w := by ring
    omega
  have hb4 : y * w + x + w + 1 < w * h := by
    have := idx_lt hx1 hy1
    have e : (y + 1) * w = y * w + w := by ring
    omega
  have hstep : fsStep w h (buf, mask) (y, x) =
      (fsDiffuse w h x y
        (buf.getD (y * w + x) 0 - fsQuant (buf.getD (y * w + x) 0)) buf,
       mask.set (y * w + x)
        (if fsQuant (buf.getD (y * w + x) 0) = 255 then 1 else 0)) := rfl
  rw [hstep, fsDiffuse_interior w h x y _ buf hx hx1 hy1]
  have himask : y * w + x < mask.length := by rw [hm]; exact idx_lt hxw hyh
  have hmbit : (mask.set (y * w + x)
      (if fsQuant (buf.getD (y * w + x) 0) = 255 then 1 else 0)).getD (y * w + x) 0
      = (if fsQuant (buf.getD (y * w + x) 0) = 255 then 1 else 0) :=
    getD_set_self _ _ _ _ himask
  refine ⟨fun _ => rfl, ?_, ?_, hmbit, ?_, ?_, ?_, ?_, ?_, ?_⟩
  · intro v hv; simp [fsQuant, hv]
  · intro v hv; simp [fsQuant, hv]
  · rw [hmbit]
    by_cases hlt : buf.getD (y * w + x) 0 < 128 <;> simp [fsQuant, hlt]
  · rw [getD_bufAdd_ne _ _ _ _ (by omega), getD_bufAdd_ne _ _ _ _ (by omega),
      getD_bufAdd_ne _ _ _ _ (by omega),
      getD_bufAdd_self _ _ _ (by omega)]
  · rw [getD_bufAdd_ne _ _ _ _ (by omega), getD_bufAdd_ne _ _ _ _ (by omega),
      getD_bufAdd_self _ _ _ (by simp [length_bufAdd]; omega),
      getD_bufAdd_ne _ _ _ _ (by omega)]
  · rw [getD_bufAdd_ne _ _ _ _ (by omega),
      getD_bufAdd_self _ _ _ (by simp [length_bufAdd]; omega),
      getD_bufAdd_ne _ _ _ _ (by omega), getD_bufAdd_ne _ _ _ _ (by omega)]
  · rw [getD_bufAdd_self _ _ _ (by simp [length_bufAdd]; omega),
      getD_bufAdd_ne _ _ _ _ (by omega), getD_bufAdd_ne _ _ _ _ (by omega),
      getD_bufAdd_ne _ _ _ _ (by omega)]
  · rw [sum_bufAdd _ _ _ (by simp [length_bufAdd]; omega),
      sum_bufAdd _ _ _ (by simp [length_bufAdd]; omega),
      sum_bufAdd _ _ _ (by simp [length_bufAdd]; omega),
      sum_bufAdd _ _ _ (by omega)]
    ring

/-- C1 witness: the conservation conjunct of `fs_pixel_step` at the concrete
interior pixel (1,0) of a 3x2 uniform buffer of value 100. -/
theorem fs_pixel_step_witness :
    (fsStep 3 2 (List.replicate 6 (100:ℚ), List.replicate 6 (0:ℕ)) (0, 1)).1.sum
      = (List.replicate 6 (100:ℚ)).sum
        + ((List.replicate 6 (100:ℚ)).getD (0 * 3 + 1) 0
          - fsQuant ((List.replicate 6 (100:ℚ)).getD (0 * 3 + 1) 0)) :=
  (fs_pixel_step 3 2 1 0 (List.replicate 6 100) (List.replicate 6 0)
    (by decide) (by decide) (by decide) (by simp) (by simp)).2.2.2.2.2.2.2.2.2

/-- C2: Atkinson shares the buffer-and-threshold-128 structure; at each pixel
`err = (old - new) / 8` is added, undivided, to each of the up-to-six in-bounds
neighbors, and when all six are in bounds exactly 6/8 of the quantization
error is propagated (the buffer sum grows by `6/8 * (old - new)`), the
remaining 2/8 being discarded. -/
theorem atk_pixel_step (w h x y : ℕ) (buf : List ℚ) (mask : List ℕ)
    (hx : 0 < x) (hx2 : x + 2 < w) (hy2 : y + 2 < h)
    (hb : buf.length = w * h) (hm : mask.length = w * h) :
    (∀ gray : List ℚ, atkinson w h gray =
      (scanOrder w h).foldl (atkStep w h) (gray, List.replicate (w * h) 0)) ∧
    (atkStep w h (buf, mask) (y, x)).2.getD (y * w + x) 0
      = (if fsQuant (buf.getD (y * w + x) 0) = 255 then 1 else 0) ∧
    (atkStep w h (buf, mask) (y, x)).1.getD (y * w + x + 1) 0
      = buf.getD (y * w + x + 1) 0
        + (buf.getD (y * w + x) 0 - fsQuant (buf.getD (y * w + x) 0)) / 8 ∧
    (atkStep w h (buf, mask) (y, x)).1.getD (y * w + x + 2) 0
      = buf.getD (y * w + x + 2) 0
        + (buf.getD (y * w + x) 0 - fsQuant (buf.getD (y * w + x) 0)) / 8 ∧
    (atkStep w h (buf, mask) (y, x)).1.getD (y * w + x + w - 1) 0
      = buf.getD (y * w + x + w - 1) 0
        + (buf.getD (y * w + x) 0 - fsQuant (buf.getD (y * w + x) 0)) / 8 ∧
    (atkStep w h (buf, mask) (y, x)).1.getD (y * w + x + w) 0
      = buf.getD (y * w + x + w) 0
        + (buf.getD (y * w + x) 0 - fsQuant (buf.getD (y * w + x) 0)) / 8 ∧
    (atkStep w h (buf, mask) (y, x)).1.getD (y * w + x + w + 1) 0
      = buf.getD (y * w + x + w + 1) 0
        + (buf.getD (y * w + x) 0 - fsQuant (buf.getD (y * w + x) 0)) / 8 ∧
    (atkStep w h (buf, mask) (y, x)).1.getD (y * w + x + 2 * w) 0
      = buf.getD (y * w + x + 2 * w) 0
        + (buf.getD (y * w + x) 0 - fsQuant (buf.getD (y * w + x) 0)) / 8 ∧
    (atkStep w h (buf, mask) (y, x)).1.sum
      = buf.sum + 6 / 8 * (buf.getD (y * w + x) 0 - fsQuant (buf.getD (y * w + x) 0)) := by
  have hxw : x < w := by omega
  have hyh : y < h := by omega
  have hc1 : y * w + x + 1 < w * h := by
    have := idx_lt (show x + 1 < w by omega) hyh
    omega
  have hc2 : y * w + x + 2 < w * h := by
    have := idx_lt hx2 hyh
    omega
  have hc3 : y * w + x + w - 1 < w * h := by
    have := idx_lt (show x - 1 < w by omega) (show y + 1 < h by omega)
    have e : (y + 1) * w = y * w + w := by ring
    omega
  have hc4 : y * w + x + w < w * h := by
    have := idx_lt hxw (show y + 1 < h by omega)
    have e : (y + 1) * w = y * w + w := by ring
    omega
  have hc5 : y * w + x + w + 1 < w * h := by
    have := idx_lt (show x + 1 < w by omega) (show y + 1 < h by omega)
    have e : (y + 1) * w = y * w + w := by ring
    omega
  have hc6 : y * w + x + 2 * w < w * h := by
    have := idx_lt hxw hy2
    have e : (y + 2) * w = y * w + 2 * w := by ring
    omega
  have hstep : atkStep w h (buf, mask) (y, x) =
      (atkDiffuse w h x y
        ((buf.getD (y * w + x) 0 - fsQuant (buf.getD (y * w + x) 0)) / 8) buf,
       mask.set (y * w + x)
        (if fsQuant (buf.getD (y * w + x) 0) = 255 then 1 else 0)) := rfl
  rw [hstep, atkDiffuse_interior w h x y _ buf hx hx2 hy2]
  have himask : y * w + x < mask.length := by rw [hm]; exact idx_lt hxw hyh
  refine ⟨fun _ => rfl, getD_set_self _ _ _ _ himask, ?_, ?_, ?_, ?_, ?_, ?_, ?_⟩
  · rw [getD_bufAdd_ne _ _ _ _ (by omega), getD_bufAdd_ne _ _ _ _ (by omega),
      getD_bufAdd_ne _ _ _ _ (by omega), getD_bufAdd_ne _ _ _ _ (by omega),
      getD_bufAdd_ne _ _ _ _ (by omega), getD_bufAdd_self _ _ _ (by omega)]
  · rw [getD_bufAdd_ne _ _ _ _ (by omega), getD_bufAdd_ne _ _ _ _ (by omega),
      getD_bufAdd_ne _ _ _ _ (by omega), getD_bufAdd_ne _ _ _ _ (by omega),
      getD_bufAdd_self _ _ _ (by simp [length_bufAdd]; omega),
      getD_bufAdd_ne _ _ _ _ (by omega)]
  · rw [getD_bufAdd_ne _ _ _ _ (by omega), getD_bufAdd_ne _ _ _ _ (by omega),
      getD_bufAdd_ne _ _ _ _ (by omega),
      getD_bufAdd_self _ _ _ (by simp [length_bufAdd]; omega),
      getD_bufAdd_ne _ _ _ _ (by omega), getD_bufAdd_ne _ _ _ _ (by omega)]
  · rw [getD_bufAdd_ne _ _ _ _ (by omega), getD_bufAdd_ne _ _ _ _ (by omega),
      getD_bufAdd_self _ _ _ (by simp [length_bufAdd]; omega),
      getD_bufAdd_ne _ _ _ _ (by omega), getD_bufAdd_ne _ _ _ _ (by omega),
      getD_bufAdd_ne _ _ _ _ (by omega)]
  · rw [getD_bufAdd_ne _ _ _ _ (by omega),
      getD_bufAdd_self _ _ _ (by simp [length_bufAdd]; omega),
      getD_bufAdd_ne _ _ _ _ (by omega), getD_bufAdd_ne _ _ _ _ (by omega),
      getD_bufAdd_ne _ _ _ _ (by omega), getD_bufAdd_ne _ _ _ _ (by omega)]
  · rw [getD_bufAdd_self _ _ _ (by simp [length_bufAdd]; omega),
      getD_bufAdd_ne _ _ _ _ (by omega), getD_bufAdd_ne _ _ _ _ (by omega),
      getD_bufAdd_ne _ _ _ _ (by omega), getD_bufAdd_ne _ _ _ _ (by omega),
      getD_bufAdd_ne _ _ _ _ (by omega)]
  · rw [sum_bufAdd _ _ _ (by simp [length_bufAdd]; omega),
      sum_bufAdd _ _ _ (by simp [length_bufAdd]; omega),
      sum_bufAdd _ _ _ (by simp [length_bufAdd]; omega),
      sum_bufAdd _ _ _ (by simp [length_bufAdd]; omega),
      sum_bufAdd _ _ _ (by simp [length_bufAdd]; omega),
      sum_bufAdd _ _ _ (by omega)]
    ring

/-- C2 witness: the 6/8-conservation conjunct of `atk_pixel_step` at the
concrete interior pixel (1,0) of a 4x3 uniform buffer of value 100. -/
theorem atk_pixel_step_witness :
    (atkStep 4 3 (List.replicate 12 (100:ℚ), List.replicate 12 (0:ℕ)) (0, 1)).1.sum
      = (List.replicate 12 (100:ℚ)).sum
        + 6 / 8 * ((List.replicate 12 (100:ℚ)).getD (0 * 4 + 1) 0
          - fsQuant ((List.replicate 12 (100:ℚ)).getD (0 * 4 + 1) 0)) :=
  (atk_pixel_step 4 3 1 0 (List.replicate 12 100) (List.replicate 12 0)
    (by decide) (by decide) (by decide) (by simp) (by simp)).2.2.2.2.2.2.2.2

/-- C3: for the ordered (Bayer) variants the mask bit at pixel (x, y) is 1
exactly when the gray value strictly exceeds
`(M[y mod N][x mod N] + 0.5) * 255 / N^2`, where the three stock matrices have
sizes 2, 4, 8; in particular a 1x1 image of value 128 under the 2x2 matrix has
threshold 31.875 at (0,0) and yields mask bit 1. -/
theorem ordered_mask_spec (m : List (List ℕ)) (w h x y : ℕ) (gray : List ℚ)
    (hx : x < w) (hy : y < h) :
    (BAYER_2.length = 2 ∧ BAYER_4.length = 4 ∧ BAYER_8.length = 8) ∧
    ((orderedMask m w h gray).getD (y * w + x) 0 = 1 ↔
      gray.getD (y * w + x) 0 > orderedThreshold m x y) ∧
    orderedThreshold BAYER_2 0 0 = 31.875 ∧
    ((128:ℚ) > 31.875) ∧
    orderedMask BAYER_2 1 1 [128] = [1] := by
  refine ⟨⟨rfl, rfl, rfl⟩, ?_, ?_, by norm_num, ?_⟩
  · rw [getD_orderedMask m w h gray x y hx hy]
    split_ifs with hgt
    · exact iff_of_true rfl hgt
    · exact iff_of_false (by decide) hgt
  · norm_num [orderedThreshold, BAYER_2]
  · norm_num [orderedMask, orderedThreshold, BAYER_2, List.range_succ]

/-- C3 witness: the 1x1 end-to-end conjunct of `ordered_mask_spec`. -/
theorem ordered_mask_spec_witness : orderedMask BAYER_2 1 1 [128] = [1] :=
  (ordered_mask_spec BAYER_2 1 1 0 0 [128] (by decide) (by decide)).2.2.2.2

/-- C4: the tonal transform is exactly the spec's ordered pipeline: normalize,
additive brightness (unclamped), contrast around the midpoint only when
nonzero, clamp to [0,1] then gamma when `gamma > 0` and `gamma != 1`, invert
when enabled, then `round(x * 255)`. -/
theorem tonal_pipeline_order (powFn : ℚ → ℚ → ℚ) (t : Tonal) (v : ℚ) :
    applyTonalAdjustments powFn t v = tonalPipelineSpec powFn t v := rfl

/-- C5: the Threshold variant sets the mask bit to 1 exactly when the gray
value is at least the caller threshold clamped to [0,255]; threshold 0 gives
an all-ones mask, and the 2x2 example [10, 200, 10, 200] at threshold 128
gives mask [0, 1, 0, 1]. -/
theorem threshold_mask_spec (threshold : ℚ) (gray : List ℚ) (p : ℕ)
    (hp : p < gray.length) (hg : ∀ g ∈ gray, 0 ≤ g) :
    ((thresholdMask threshold gray).getD p 0 = 1 ↔
      gray.getD p 0 ≥ max 0 (min 255 threshold)) ∧
    (thresholdMask 0 gray).getD p 0 = 1 ∧
    thresholdMask 128 [10, 200, 10, 200] = [0, 1, 0, 1] := by
  refine ⟨?_, ?_, by norm_num [thresholdMask, max_def, min_def]⟩
  · rw [thresholdMask, getD_map_lt _ _ _ 0 _ hp]
    split_ifs with hge
    · exact iff_of_true rfl hge
    · exact iff_of_false (by decide) hge
  · rw [thresholdMask]
    have h0 : max 0 (min 255 (0:ℚ)) = 0 := by norm_num
    rw [h0, getD_map_lt _ _ _ 0 _ hp]
    have hmem : gray.getD p 0 ∈ gray := by
      rw [List.getD_eq_getElem?_getD, List.getElem?_eq_getElem hp]
      exact List.getElem_mem hp
    have hval : (0:ℚ) ≤ gray.getD p 0 := hg _ hmem
    simp only [ge_iff_le, hval, if_true]

/-- C5 witness: the 2x2 end-to-end conjunct of `threshold_mask_spec`. -/
theorem threshold_mask_spec_witness :
    thresholdMask 128 [10, 200, 10, 200] = [0, 1, 0, 1] :=
  (threshold_mask_spec 128 [10, 200, 10, 200] 1 (by simp) (by norm_num)).2.2

/-- C6: the compositor output has dimensions exactly (w*s, h*s) and every s-by-s
block at (x*s, y*s) is solid: the palette foreground where the mask bit is 1
and the background where it is 0. -/
theorem composite_spec {α : Type} (w h s : ℕ) (mask : List ℕ) (fg bg blank : α)
    (x y i j : ℕ) (hx : x < w) (hy : y < h) (hi : i < s) (hj : j < s) :
    (composite w h s mask fg bg blank).width = w * s ∧
    (composite w h s mask fg bg blank).height = h * s ∧
    (mask.getD (y * w + x) 0 = 1 →
      (composite w h s mask fg bg blank).pix (x * s + i) (y * s + j) = fg) ∧
    (mask.getD (y * w + x) 0 = 0 →
      (composite w h s mask fg bg blank).pix (x * s + i) (y * s + j) = bg) := by
  have hpix : (composite w h s mask fg bg blank).pix (x * s + i) (y * s + j)
      = if (y, x) ∈ scanOrder w h ∧ mask.getD (y * w + x) 0 ≠ 0 then fg
        else (fillRect (fun _ _ => blank) 0 0 (w * s) (h * s) bg)
          (x * s + i) (y * s + j) :=
    composite_fold_pix w s mask fg x y i j hi hj (scanOrder w h) _
  have hbg : (fillRect (fun _ _ => blank) 0 0 (w * s) (h * s) bg : Canvas α)
      (x * s + i) (y * s + j) = bg := by
    have h1 : x * s + i < w * s := by
      have h3 : (x + 1) * s ≤ w * s := Nat.mul_le_mul_right s hx
      have e : (x + 1) * s = x * s + s := by ring
      omega
    have h2 : y * s + j < h * s := by
      have h3 : (y + 1) * s ≤ h * s := Nat.mul_le_mul_right s hy
      have e : (y + 1) * s = y * s + s := by ring
      omega
    show (if 0 ≤ x * s + i ∧ x * s + i < 0 + w * s ∧
        0 ≤ y * s + j ∧ y * s + j < 0 + h * s
      then bg else blank) = bg
    rw [if_pos (by omega)]
  refine ⟨rfl, rfl, ?_, ?_⟩
  · intro hmb
    rw [hpix, if_pos ⟨mem_scanOrder.2 ⟨hy, hx⟩, by rw [hmb]; exact one_ne_zero⟩]
  · intro hmb
    rw [hpix, if_neg (fun hc => hc.2 hmb), hbg]

/-- C6 witness: `composite_spec` at a concrete 2x1 mask [1, 0] with block size
2 and ℕ colors (fg 7, bg 9), sampled inside block (0,0). -/
theorem composite_spec_witness :
    (composite 2 1 2 [1, 0] 7 9 0).width = 2 * 2 ∧
    (composite 2 1 2 [1, 0] 7 9 0).height = 1 * 2 ∧
    ([1, 0].getD (0 * 2 + 0) 0 = 1 →
      (composite 2 1 2 [1, 0] 7 9 0).pix (0 * 2 + 1) (0 * 2 + 1) = 7) ∧
    ([1, 0].getD (0 * 2 + 0) 0 = 0 →
      (composite 2 1 2 [1, 0] 7 9 0).pix (0 * 2 + 1) (0 * 2 + 1) = 9) :=
  composite_spec 2 1 2 [1, 0] 7 9 0 0 0 1 1
    (by decide) (by decide) (by decide) (by decide)

/-- C7: for every input and all parameter values, including brightness and
contrast that push the intermediate outside [0,1], the tonal transform
returns an integer in [0,255] (assuming only that `Math.pow` maps [0,1] with a
positive exponent into [0,1]); and `gamma <= 0` takes the no-gamma branch, so
the result does not depend on the power function at all. -/
theorem tonal_range (powFn : ℚ → ℚ → ℚ)
    (hpow : ∀ x e : ℚ, 0 ≤ x → x ≤ 1 → 0 < e → 0 ≤ powFn x e ∧ powFn x e ≤ 1)
    (t : Tonal) (v : ℚ) :
    0 ≤ applyTonalAdjustments powFn t v ∧
    applyTonalAdjustments powFn t v ≤ 255 ∧
    (t.gamma ≤ 0 → ∀ powFn2 : ℚ → ℚ → ℚ,
      applyTonalAdjustments powFn t v = applyTonalAdjustments powFn2 t v) := by
  have hg4 : ∀ (p : ℚ → ℚ → ℚ), (∀ x e : ℚ, 0 ≤ x → x ≤ 1 → 0 < e →
      0 ≤ p x e ∧ p x e ≤ 1) → ∀ g x : ℚ,
      0 ≤ tonalStepGamma p g x ∧ tonalStepGamma p g x ≤ 1 := by
    intro p hp g x
    rw [tonalStepGamma]
    split_ifs with hg
    · exact hp _ _ (clamp01_mem x).1 (clamp01_mem x).2 (one_div_pos.2 hg.1)
    · exact clamp01_mem x
  have hinv : ∀ (b : Bool) (x : ℚ), 0 ≤ x → x ≤ 1 →
      0 ≤ tonalStepInvert b x ∧ tonalStepInvert b x ≤ 1 := by
    intro b x h0 h1
    rw [tonalStepInvert]
    split_ifs <;> constructor <;> linarith
  rw [applyTonal_eq_pipeline, tonalPipelineSpec]
  obtain ⟨p0, p1⟩ := hg4 powFn hpow t.gamma
    (tonalStepContrast t.contrast (tonalStepBrightness t.brightness (tonalStepNormalize v)))
  obtain ⟨q0, q1⟩ := hinv t.invert _ p0 p1
  refine ⟨(roundQ_byte q0 q1).1, (roundQ_byte q0 q1).2, ?_⟩
  intro hgle powFn2
  rw [applyTonal_eq_pipeline powFn2, tonalPipelineSpec]
  have hng : ¬(t.gamma > 0 ∧ t.gamma ≠ 1) := fun hc => absurd hc.1 (not_lt.2 hgle)
  rw [tonalStepGamma, tonalStepGamma, if_neg hng, if_neg hng]

/-- C7 witness: `tonal_range` with the identity power function at brightness
150, contrast 50, gamma 2, on the out-of-range input 300. -/
theorem tonal_range_witness :
    0 ≤ applyTonalAdjustments (fun x _ => x) ⟨150, 50, 2, false⟩ 300 ∧
    applyTonalAdjustments (fun x _ => x) ⟨150, 50, 2, false⟩ 300 ≤ 255 ∧
    ((⟨150, 50, 2, false⟩ : Tonal).gamma ≤ 0 → ∀ powFn2 : ℚ → ℚ → ℚ,
      applyTonalAdjustments (fun x _ => x) ⟨150, 50, 2, false⟩ 300
        = applyTonalAdjustments powFn2 ⟨150, 50, 2, false⟩ 300) :=
  tonal_range (fun x _ => x) (fun _ _ hx hx1 _ => ⟨hx, hx1⟩) ⟨150, 50, 2, false⟩ 300

/-- C8 counterexample: an algorithm identifier matching none of the seven
cases does not signal any error: the dispatcher falls through, leaves the
zero-initialized mask untouched and returns the ordinary all-background
output [0, 0] -- indistinguishable from a legitimate Threshold run on the
same grayscale input. -/
theorem unknown_alg_silent_output :
    ditherMask "NotAnAlgorithm" 128 (fun _ => 0) 2 1 [200, 10] = [0, 0] ∧
    ditherMask "NotAnAlgorithm" 128 (fun _ => 0) 2 1 [200, 10]
      = ditherMask "Threshold" 255 (fun _ => 0) 2 1 [200, 10] := by
  have h1 : ditherMask "NotAnAlgorithm" 128 (fun _ => 0) 2 1 [200, 10] = [0, 0] := rfl
  have h2 : ditherMask "Threshold" 255 (fun _ => 0) 2 1 [200, 10] = [0, 0] := by
    show thresholdMask 255 [200, 10] = [0, 0]
    norm_num [thresholdMask, max_def, min_def]
  exact ⟨h1, h1.trans h2.symm⟩

/-- C8 (amended): for every identifier other than the seven supported ones,
the dispatcher silently returns the all-zero mask (all-background output)
instead of signaling an error. -/
theorem unknown_alg_defaults (alg : String) (threshold : ℚ) (rng : ℕ → ℚ)
    (w h : ℕ) (gray : List ℚ)
    (h1 : alg ≠ "Threshold") (h2 : alg ≠ "Random")
    (h3 : alg ≠ "Ordered Bayer 2x2") (h4 : alg ≠ "Ordered Bayer 4x4")
    (h5 : alg ≠ "Ordered Bayer 8x8") (h6 : alg ≠ "Floyd-Steinberg")
    (h7 : alg ≠ "Atkinson") :
    ditherMask alg threshold rng w h gray = List.replicate (w * h) 0 := by
  rw [ditherMask, if_neg h1, if_neg h2, if_neg h3, if_neg h4, if_neg h5,
    if_neg h6, if_neg h7]

/-- C8 witness: `unknown_alg_defaults` at the concrete identifier "Bogus". -/
theorem unknown_alg_defaults_witness :
    ditherMask "Bogus" 128 (fun _ => 0) 2 1 [200, 10] = List.replicate (2 * 1) 0 :=
  unknown_alg_defaults "Bogus" 128 (fun _ => 0) 2 1 [200, 10]
    (by decide) (by decide) (by decide) (by decide) (by decide) (by decide) (by decide)

/-- C9: whichever variant is selected (including the silent fall-through), the
mask produced by the dispatcher has length exactly w*h, equal to the grayscale
buffer length, and every entry is 0 or 1. -/
theorem ditherMask_length_binary (alg : String) (threshold : ℚ) (rng : ℕ → ℚ)
    (w h : ℕ) (gray : List ℚ) (hg : gray.length = w * h) :
    (ditherMask alg threshold rng w h gray).length = w * h ∧
    ∀ b ∈ ditherMask alg threshold rng w h gray, b = 0 ∨ b = 1 := by
  rw [ditherMask]
  split_ifs
  · exact ⟨(thresholdMask_shape threshold gray).1.trans hg,
      (thresholdMask_shape threshold gray).2⟩
  · exact ⟨(randomMask_shape rng gray).1.trans hg, (randomMask_shape rng gray).2⟩
  · exact orderedMask_shape BAYER_2 w h gray
  · exact orderedMask_shape BAYER_4 w h gray
  · exact orderedMask_shape BAYER_8 w h gray
  · exact floydSteinberg_mask_shape w h gray
  · exact atkinson_mask_shape w h gray
  · exact ⟨List.length_replicate _ _,
      fun b hb => Or.inl (List.eq_of_mem_replicate hb)⟩

/-- C9 witness: `ditherMask_length_binary` for Threshold on a 2x2 buffer. -/
theorem ditherMask_length_binary_witness :
    (ditherMask "Threshold" 128 (fun _ => 0) 2 2 [10, 200, 10, 200]).length = 2 * 2 ∧
    ∀ b ∈ ditherMask "Threshold" 128 (fun _ => 0) 2 2 [10, 200, 10, 200],
      b = 0 ∨ b = 1 :=
  ditherMask_length_binary "Threshold" 128 (fun _ => 0) 2 2 [10, 200, 10, 200] (by simp)

/-- C10: for every non-Random variant the full pipeline is a pure function of
its inputs: the output raster does not depend on the injected random stream,
so two runs with identical parameters produce identical output; only the
Random variant reads the stream. -/
theorem pipeline_deterministic {α : Type} (powFn : ℚ → ℚ → ℚ) (alg : String)
    (t : Tonal) (threshold : ℚ) (rng rng2 : ℕ → ℚ) (w h s : ℕ)
    (src : List (ℚ × ℚ × ℚ)) (fg bg blank : α) (halg : alg ≠ "Random") :
    processImage powFn alg t threshold rng w h s src fg bg blank
      = processImage powFn alg t threshold rng2 w h s src fg bg blank := by
  have hgray : ∀ rngX : ℕ → ℚ,
      processImage powFn alg t threshold rngX w h s src fg bg blank
        = composite w h s (ditherMask alg threshold rngX w h
            (src.map (fun rgb =>
              (clampByte (applyTonalAdjustments powFn t
                (toLuma rgb.1 rgb.2.1 rgb.2.2)) : ℚ)))) fg bg blank :=
    fun _ => rfl
  rw [hgray rng, hgray rng2, ditherMask_rng_irrelevant alg halg]

/-- C10 witness: `pipeline_deterministic` for a 1x1 Threshold run under two
different random streams. -/
theorem pipeline_deterministic_witness :
    processImage (fun x _ => x) "Threshold" ⟨0, 0, 1, false⟩ 128 (fun _ => 0) 1 1 1
        [(100, 100, 100)] 7 9 0
      = processImage (fun x _ => x) "Threshold" ⟨0, 0, 1, false⟩ 128 (fun _ => 99) 1 1 1
        [(100, 100, 100)] 7 9 0 :=
  pipeline_deterministic (fun x _ => x) "Threshold" ⟨0, 0, 1, false⟩ 128
    (fun _ => 0) (fun _ => 99) 1 1 1 [(100, 100, 100)] 7 9 0 (by decide)

end Dither
